import Mathlib

/-!
Verification of the vacation-scheduling calendar component.

The source is a single React component.  Its logic-bearing parts are pure:
date utilities (`formatYMD`, `parseYMD`, `daysBetween`, `rangesOverlap`),
the month-grid builder (`monthDays`), the selection state machine
(`onDayClick`, `clearSelection`), and the store-interaction rules
(`tryAssign`, `removeEmployee`, `employeeById`).  We embed each of those
here.  JavaScript `Date` objects (always local midnights in this program)
are modelled as canonical civil dates `CDate` (year, 0-based month,
1-based day); the value of such a `Date` in milliseconds is modelled via
an epoch-day count together with an explicit local-timezone offset
function, so that daylight-saving behaviour can be stated faithfully.
-/

namespace Vacaciones

/-- A civil (Gregorian) calendar date as JavaScript exposes it:
`year` is `getFullYear()`, `month` is `getMonth()` (0-based),
`day` is `getDate()` (1-based). -/
structure CDate where
  year : Int
  month : Int
  day : Int
deriving DecidableEq, Repr

/-- Gregorian leap-year rule, as implemented by the JavaScript `Date`
(proleptic Gregorian calendar). -/
def isLeap (y : Int) : Bool :=
  y % 4 = 0 && (y % 100 != 0 || y % 400 = 0)

/-- Number of days of 0-based month `m` of year `y`. -/
def daysInMonthC (y m : Int) : Int :=
  if m = 1 then (if isLeap y then 29 else 28)
  else if m = 3 ∨ m = 5 ∨ m = 8 ∨ m = 10 then 30
  else 31

/-- Days since 1970-01-01 of the civil date (`y`, 0-based month `m`,
day `d`), by the standard days-from-civil computation for the proleptic
Gregorian calendar.  This is the day count underlying a JS `Date`'s
millisecond value. -/
def epochDayOf (y m d : Int) : Int :=
  let m1 := m + 1
  let yA := if m1 ≤ 2 then y - 1 else y
  let era := yA / 400
  let yoe := yA - era * 400
  let mth := if 2 < m1 then m1 - 3 else m1 + 9
  let doy := (153 * mth + 2) / 5 + (d - 1)
  let doe := yoe * 365 + yoe / 4 - yoe / 100 + doy
  era * 146097 + doe - 719468

/-- Epoch-day count of a `CDate`. -/
def epochOf (c : CDate) : Int :=
  epochDayOf c.year c.month c.day

/-- A `CDate` whose fields are in canonical range (month 0–11, day within
the month).  `Date` objects produced by the JS engine always satisfy
this. -/
def Canonical (c : CDate) : Prop :=
  0 ≤ c.month ∧ c.month ≤ 11 ∧ 1 ≤ c.day ∧ c.day ≤ daysInMonthC c.year c.month

instance (c : CDate) : Decidable (Canonical c) := by
  unfold Canonical; infer_instance

/-- Day-of-month normalisation used by the JS `Date(y, m, d)` constructor:
starting from a canonical month, an out-of-range day borrows from or
carries into adjacent months until it is in range.  The result is the
canonical date `d - 1` days after the first of the given month.  `fuel`
bounds the recursion; callers pass enough fuel for it never to run out
(each step moves `d` by at least 28). -/
def normDay : Nat → Int → Int → Int → CDate
  | 0, y, m, d => ⟨y, m, d⟩
  | fuel + 1, y, m, d =>
    if d < 1 then
      let y2 := if m = 0 then y - 1 else y
      let m2 := if m = 0 then 11 else m - 1
      normDay fuel y2 m2 (d + daysInMonthC y2 m2)
    else if daysInMonthC y m < d then
      normDay fuel (if m = 11 then y + 1 else y) (if m = 11 then 0 else m + 1)
        (d - daysInMonthC y m)
    else ⟨y, m, d⟩

/-- The JS `new Date(year, month, day)` constructor restricted to local
midnight, returning the canonical civil date it denotes.  It applies the
ECMAScript two-digit-year rule (years 0–99 mean 1900+year), then
normalises the month into the year, then normalises the day. -/
def mkDate (y m d : Int) : CDate :=
  let y1 := if 0 ≤ y ∧ y ≤ 99 then 1900 + y else y
  let ym := y1 * 12 + m
  normDay (d.natAbs + 64) (ym / 12) (ym % 12) d

/-- JS `Date.prototype.getDay`: weekday with Sunday = 0.  1970-01-01
(epoch day 0) was a Thursday (4). -/
def getDay (c : CDate) : Int :=
  (epochOf c + 4) % 7

/-- Sanity: the epoch itself. -/
example : epochDayOf 1970 0 1 = 0 := by decide

/-- Sanity: 2024-03-10 (the 2024 US spring-forward date) is epoch day
19792, a Sunday. -/
example : epochDayOf 2024 2 10 = 19792 ∧ getDay ⟨2024, 2, 10⟩ = 0 := by decide

/-- Sanity: leap-year February. -/
example : daysInMonthC 2024 1 = 29 ∧ daysInMonthC 2023 1 = 28 ∧
    daysInMonthC 2000 1 = 29 ∧ daysInMonthC 1900 1 = 28 := by decide

/-- Sanity: the two-digit-year rule of the JS constructor. -/
example : mkDate 50 2 1 = ⟨1950, 2, 1⟩ := by decide

/-- Sanity: day 0 selects the last day of the previous month. -/
example : mkDate 2024 2 0 = ⟨2024, 1, 29⟩ ∧ mkDate 2024 12 0 = ⟨2024, 11, 31⟩ := by decide

/-! ### Decimal strings

`formatYMD` builds `YYYY-MM-DD` via JS `String(number)` and
`String.prototype.padStart(2, "0")`; `parseYMD` splits on `"-"` and
applies `Number`.  We embed those string primitives on `List Char`. -/

/-- The decimal digit character for `n < 10`. -/
def digitChar (n : Nat) : Char :=
  if n = 0 then '0' else if n = 1 then '1' else if n = 2 then '2'
  else if n = 3 then '3' else if n = 4 then '4' else if n = 5 then '5'
  else if n = 6 then '6' else if n = 7 then '7' else if n = 8 then '8' else '9'

/-- Decimal digits of `n`, most significant first (`fuel`-bounded; the
number of digits of `n` is at most `n + 1`, so the wrapper's fuel always
suffices). -/
def natDigitsAux : Nat → Nat → List Char
  | 0, _ => []
  | fuel + 1, n =>
    if n < 10 then [digitChar n]
    else natDigitsAux fuel (n / 10) ++ [digitChar (n % 10)]

/-- JS `String(n)` for a natural number: its decimal digits. -/
def natDigits (n : Nat) : List Char :=
  natDigitsAux (n + 1) n

/-- JS `String(i)` for an integer. -/
def intDigits (i : Int) : List Char :=
  if i < 0 then '-' :: natDigits i.natAbs else natDigits i.natAbs

/-- JS `String.prototype.padStart(2, "0")`. -/
def padStart2 (cs : List Char) : List Char :=
  if cs.length ≥ 2 then cs else List.replicate (2 - cs.length) '0' ++ cs

/-- Value of a list of decimal digit characters (the accumulator loop of
decimal string-to-number conversion). -/
def digitsValN (cs : List Char) : Nat :=
  cs.foldl (fun a c => 10 * a + (c.toNat - 48)) 0

/-- JS `Number(s)` on the fragment this program exercises: the empty
string converts to `0`, a nonempty all-digit string to its decimal
value, and anything else to NaN (modelled as `none`). -/
def jsNumber (cs : List Char) : Option Int :=
  if cs = [] then some 0
  else if cs.all Char.isDigit then some (Int.ofNat (digitsValN cs)) else none

/-- JS `String.prototype.split("-")` on the character list of a string:
splits at every `'-'`, keeping empty groups, and returns at least one
group (`"".split("-")` is `[""]`). -/
def splitDash : List Char → List (List Char)
  | [] => [[]]
  | c :: rest =>
    if c = '-' then [] :: splitDash rest
    else
      match splitDash rest with
      | [] => [[c]]
      | g :: gs => (c :: g) :: gs

/-- Argument type of the source `formatYMD(d)`, which accepts either a
`Date` or an already-formatted string. -/
inductive DateOrString where
  | date (d : CDate)
  | str (s : String)
deriving DecidableEq

/-- The source `formatYMD`: a string argument is returned unchanged; a
`Date` is rendered as `` `${yyyy}-${mm}-${dd}` `` with the month and day
zero-padded to two characters (the year is not padded). -/
def formatYMD : DateOrString → String
  | .str s => s
  | .date c =>
    String.mk (intDigits c.year ++ '-' ::
      (padStart2 (intDigits (c.month + 1)) ++ '-' :: padStart2 (intDigits c.day)))

/-- The source `parseYMD`: split on `"-"`, convert the first three
pieces with `Number`, and build `new Date(y, m - 1, d)`.  A missing or
non-numeric piece yields NaN and hence an Invalid Date, modelled as
`none`. -/
def parseYMD (s : String) : Option CDate :=
  let parts := splitDash s.data
  match parts[0]?, parts[1]?, parts[2]? with
  | some ys, some ms, some ds =>
    match jsNumber ys, jsNumber ms, jsNumber ds with
    | some y, some m, some d => some (mkDate y (m - 1) d)
    | _, _, _ => none
  | _, _, _ => none

/-- Sanity: formatting and parsing concrete dates. -/
example : formatYMD (.date ⟨2024, 0, 5⟩) = "2024-01-05" := by decide

example : parseYMD "2024-01-05" = some ⟨2024, 0, 5⟩ := by decide

example : parseYMD "50-03-01" = some ⟨1950, 2, 1⟩ := by decide

example : parseYMD "garbage" = none ∧ parseYMD "" = none := by decide

/-! ### Millisecond values and timezone model

A `Date` produced by `parseYMD` is a local midnight.  Its millisecond
value is `86400000 * epochDay + off epochDay`, where `off` gives the
(possibly daylight-saving-dependent) shift of that local midnight from
the UTC day boundary.  A real timezone's offsets never differ by twelve
hours or more between two dates, which is the `TZBounded` hypothesis. -/

/-- Millisecond value of the local-midnight `Date` for civil date `c`
under local-timezone shift function `off` (indexed by epoch day). -/
def msOf (off : Int → Int) (c : CDate) : Int :=
  86400000 * epochOf c + off (epochOf c)

/-- Offsets of the modelled timezone differ by less than half a day
between any two dates; every real timezone (in particular across
daylight-saving transitions, which shift by at most two hours)
satisfies this. -/
def TZBounded (off : Int → Int) : Prop :=
  ∀ n m : Int, 2 * (off n - off m).natAbs < 86400000

/-- The all-zero shift function (a UTC-like timezone). -/
def tzZero : Int → Int := fun _ => 0

/-- JS `<` between two (possibly invalid) `Date` values: numeric
comparison of millisecond values; any comparison with an Invalid Date
(NaN) is false. -/
def dateLtB (off : Int → Int) : Option CDate → Option CDate → Bool
  | some a, some b => decide (msOf off a < msOf off b)
  | _, _ => false

/-- JS `Math.round (p / q)` for an integer dividend and positive integer
divisor: `Math.round x` is `⌊x + 1/2⌋` (ties toward positive
infinity). -/
def jsRoundDiv (p q : Int) : Int :=
  (2 * p + q) / (2 * q)

/-- The source `daysBetween(a, b)`: parse both strings and round the
millisecond difference divided by `24 * 3600 * 1000`.  If either parse
produced an Invalid Date the result is NaN, modelled as `none`. -/
def daysBetween (off : Int → Int) (a b : String) : Option Int :=
  match parseYMD a, parseYMD b with
  | some da, some db => some (jsRoundDiv (msOf off db - msOf off da) 86400000)
  | _, _ => none

/-- The source `rangesOverlap(aStart, aEnd, bStart, bEnd)`:
`!(parseYMD(aEnd) < parseYMD(bStart) || parseYMD(bEnd) < parseYMD(aStart))`. -/
def rangesOverlap (off : Int → Int) (aStart aEnd bStart bEnd : String) : Bool :=
  !(dateLtB off (parseYMD aEnd) (parseYMD bStart) ||
    dateLtB off (parseYMD bEnd) (parseYMD aStart))

/-- Sanity: `Math.round` semantics, including the negative-ties case. -/
example : jsRoundDiv 3 2 = 2 ∧ jsRoundDiv (-3) 2 = -1 ∧ jsRoundDiv (-8) 5 = -2 := by decide

example : daysBetween tzZero "2024-02-28" "2024-03-01" = some 2 := by decide

example : rangesOverlap tzZero "2024-01-10" "2024-01-15" "2024-01-15" "2024-01-20" = true := by
  decide

/-! ### The month-grid builder -/

/-- The `while (dayCounter <= daysInMonth)` loop of `monthDays`: each
iteration emits a 7-slot week whose slot `i` holds day `dc + i` when
that does not exceed the month length and `null` otherwise, then
advances the day counter by the number of slots filled.  `fuel` bounds
the loop; since `dc` starts at least at 2 and `dim ≤ 31`, at most five
iterations ever run, so the fuel of 6 used below never runs out. -/
def weeksFrom (y m dim : Int) : Nat → Int → List (List (Option String))
  | 0, _ => []
  | fuel + 1, dc =>
    if dc ≤ dim then
      ((List.range 7).map fun (i : Nat) =>
        if dc + (i : Int) ≤ dim then
          some (formatYMD (.date (mkDate y m (dc + (i : Int))))) else none)
      :: weeksFrom y m dim fuel (dc + 7)
    else []

/-- The source `monthDays` grid builder: the first week left-pads with
`null` up to the first day's weekday and fills days `1 .. 7 - firstWeekday`
in the remaining slots; subsequent weeks follow via the `while` loop.
`daysInMonth` is obtained, as in the source, as `getDate` of day 0 of
the following month. -/
def monthDays (viewYear viewMonth : Int) : List (List (Option String)) :=
  let firstWeekday := getDay (mkDate viewYear viewMonth 1)
  let daysInMonth := (mkDate viewYear (viewMonth + 1) 0).day
  let week := (List.range 7).map fun (i : Nat) =>
    if (i : Int) < firstWeekday then none
    else some (formatYMD (.date (mkDate viewYear viewMonth ((i : Int) - firstWeekday + 1))))
  week :: weeksFrom viewYear viewMonth daysInMonth 6 (8 - firstWeekday)

/-- Sanity: February 2024 (leap year; the 1st was a Thursday). -/
example : monthDays 2024 1 =
    [[none, none, none, none,
      some "2024-02-01", some "2024-02-02", some "2024-02-03"],
     [some "2024-02-04", some "2024-02-05", some "2024-02-06", some "2024-02-07",
      some "2024-02-08", some "2024-02-09", some "2024-02-10"],
     [some "2024-02-11", some "2024-02-12", some "2024-02-13", some "2024-02-14",
      some "2024-02-15", some "2024-02-16", some "2024-02-17"],
     [some "2024-02-18", some "2024-02-19", some "2024-02-20", some "2024-02-21",
      some "2024-02-22", some "2024-02-23", some "2024-02-24"],
     [some "2024-02-25", some "2024-02-26", some "2024-02-27", some "2024-02-28",
      some "2024-02-29", none, none]] := by decide

/-! ### Application state and store operations -/

/-- An employee record as stored in the `employees` collection. -/
structure Employee where
  id : String
  name : String
  color : String
deriving DecidableEq

/-- A vacation record as stored in the `vacations` collection.  The
source field `end` is a reserved word here and is named `endDate`. -/
structure Vacation where
  id : String
  employeeId : String
  start : String
  endDate : String
deriving DecidableEq

/-- The component state relevant to the verified behaviour.  `db` is
whether the Firestore handle is available.  The local `vacations` cache
is only ever replaced by subscription snapshots, never mutated by the
operations below. -/
structure AppState where
  employees : List Employee
  vacations : List Vacation
  selectStart : Option String
  selectEnd : Option String
  assignEmployeeId : Option String
  message : Option String
  db : Bool
deriving DecidableEq

/-- JS truthiness of a nullable string: `null` and `""` are falsy. -/
def truthyS : Option String → Bool
  | none => false
  | some s => s ≠ ""

/-- The source `onDayClick(dateStr)`: ignore falsy slots; a first click
records the start (clearing any end and message); a second click
completes the range, swapping if the new date is chronologically
earlier; a click on a complete selection restarts with a fresh start. -/
def onDayClick (off : Int → Int) (dateStr : Option String) (s : AppState) : AppState :=
  if !truthyS dateStr then s
  else if !truthyS s.selectStart then
    { s with selectStart := dateStr, selectEnd := none, message := none }
  else if !truthyS s.selectEnd then
    if dateLtB off (parseYMD (dateStr.getD "")) (parseYMD (s.selectStart.getD "")) then
      { s with selectEnd := s.selectStart, selectStart := dateStr }
    else
      { s with selectEnd := dateStr }
  else
    { s with selectStart := dateStr, selectEnd := none }

/-- The source `clearSelection()`. -/
def clearSelection (s : AppState) : AppState :=
  { s with selectStart := none, selectEnd := none, assignEmployeeId := none,
           message := none }

/-- The source `tryAssign()`, with the remote `vacations` collection made
explicit and `newId` standing for the document id Firestore generates.
The three guards are checked in source order, each failure only setting
the user message; on success exactly one vacation record is appended
(the removed conflict-prevention logic means no overlap check occurs),
the selection is cleared, and the success message shown.  The remote
call itself is modelled as succeeding; its `setTimeout` message
self-clear is timing behaviour outside this model. -/
def tryAssign (newId : String) (s : AppState) (store : List Vacation) :
    AppState × List Vacation :=
  if !truthyS s.selectStart || !truthyS s.selectEnd then
    ({ s with message := some "Selecciona un rango válido (start y end)." }, store)
  else if !truthyS s.assignEmployeeId then
    ({ s with message := some "Selecciona un empleado al que asignar esas vacaciones." },
      store)
  else if !s.db then
    ({ s with message := some "Error: No se puede conectar a la base de datos." }, store)
  else
    ({ clearSelection s with message := some "Vacaciones asignadas correctamente." },
      store ++ [{ id := newId, employeeId := s.assignEmployeeId.getD "",
                  start := s.selectStart.getD "", endDate := s.selectEnd.getD "" }])

/-- A deletion issued against the remote store. -/
inductive StoreOp where
  | delEmp (id : String)
  | delVac (id : String)
deriving DecidableEq

/-- The remote collections. -/
structure Store where
  employees : List Employee
  vacations : List Vacation
deriving DecidableEq

/-- The source `removeEmployee(empId)`: nothing happens without a store
handle; otherwise it first issues the employee deletion, then queries
the vacations whose `employeeId` matches and issues one deletion per
match.  The deletions are independent fire-and-forget operations, which
is why they are modelled as a list of issued operations rather than one
atomic update. -/
def removeEmployeeOps (db : Bool) (empId : String) (vacs : List Vacation) :
    List StoreOp :=
  if !db then []
  else .delEmp empId ::
    (vacs.filter fun v => v.employeeId == empId).map fun v => .delVac v.id

/-- Effect of one resolved deletion on the remote store: Firestore
deletes the document with the given id. -/
def applyOp (st : Store) : StoreOp → Store
  | .delEmp i => { st with employees := st.employees.filter fun e => e.id ≠ i }
  | .delVac i => { st with vacations := st.vacations.filter fun v => v.id ≠ i }

/-- State of the remote store once a list of issued deletions has
resolved. -/
def applyOps (ops : List StoreOp) (st : Store) : Store :=
  ops.foldl applyOp st

/-- What the source reads off the record returned by `employeeById`:
only its `name` and `color` (the placeholder object has no `id`). -/
structure PersonView where
  name : String
  color : String
deriving DecidableEq

/-- The source `employeeById(id)`:
`employees.find((e) => e.id === id) || { name: "Desconocido", color: "gray" }`. -/
def employeeById (employees : List Employee) (id : String) : PersonView :=
  match employees.find? fun e => e.id == id with
  | some e => ⟨e.name, e.color⟩
  | none => ⟨"Desconocido", "gray"⟩

/-! ### Facts about the date constructor -/

theorem daysInMonthC_bounds (y m : Int) :
    28 ≤ daysInMonthC y m ∧ daysInMonthC y m ≤ 31 := by
  unfold daysInMonthC
  split
  · split <;> omega
  · split <;> omega

theorem normDay_in_range (fuel : Nat) (y m d : Int) (h1 : 1 ≤ d)
    (h2 : d ≤ daysInMonthC y m) : normDay fuel y m d = ⟨y, m, d⟩ := by
  cases fuel with
  | zero => rfl
  | succ f =>
    simp only [normDay]
    rw [if_neg (by omega), if_neg (by omega)]

theorem normDay_borrow (fuel : Nat) (y m d : Int) (h : d < 1) :
    normDay (fuel + 1) y m d =
      normDay fuel (if m = 0 then y - 1 else y) (if m = 0 then 11 else m - 1)
        (d + daysInMonthC (if m = 0 then y - 1 else y) (if m = 0 then 11 else m - 1)) := by
  simp only [normDay]
  rw [if_pos h]

/-- For a year of at least 100 (no two-digit-year rule), a canonical
month, and an in-range day, the JS constructor is the identity on civil
fields. -/
theorem mkDate_canonical (y m d : Int) (hy : 100 ≤ y) (hm0 : 0 ≤ m) (hm1 : m ≤ 11)
    (hd1 : 1 ≤ d) (hd2 : d ≤ daysInMonthC y m) : mkDate y m d = ⟨y, m, d⟩ := by
  unfold mkDate
  rw [if_neg (by omega)]
  show normDay (d.natAbs + 64) ((y * 12 + m) / 12) ((y * 12 + m) % 12) d = _
  have h12 : (y * 12 + m) / 12 = y := by omega
  have h12b : (y * 12 + m) % 12 = m := by omega
  rw [h12, h12b]
  exact normDay_in_range _ _ _ _ hd1 hd2

/-- Day 0 of month `m + 1` is the last day of month `m`: the source's
`daysInMonth` computation agrees with the model's month lengths. -/
theorem mkDate_day_zero (y m : Int) (hy : 100 ≤ y) (hm0 : 0 ≤ m) (hm1 : m ≤ 11) :
    mkDate y (m + 1) 0 = ⟨y, m, daysInMonthC y m⟩ := by
  have hb := daysInMonthC_bounds y m
  unfold mkDate
  rw [if_neg (by omega)]
  show normDay ((0 : Int).natAbs + 64) ((y * 12 + (m + 1)) / 12)
    ((y * 12 + (m + 1)) % 12) 0 = _
  have hfuel : (0 : Int).natAbs + 64 = 63 + 1 := rfl
  rw [hfuel]
  rcases eq_or_lt_of_le hm1 with h11 | h11
  · -- December: the month index wraps into the next year.
    subst h11
    have h12 : (y * 12 + (11 + 1)) / 12 = y + 1 := by omega
    have h12b : (y * 12 + (11 + 1)) % 12 = 0 := by omega
    rw [h12, h12b, normDay_borrow _ _ _ _ (by omega)]
    rw [if_pos rfl, if_pos rfl]
    have hy1 : y + 1 - 1 = y := by omega
    rw [hy1]
    have h31 : daysInMonthC y 11 = 31 := by unfold daysInMonthC; norm_num
    rw [h31, normDay_in_range _ _ _ _ (by omega) (by omega)]
    norm_num
  · -- Months 0–10: the month index stays within the year.
    have h12 : (y * 12 + (m + 1)) / 12 = y := by omega
    have h12b : (y * 12 + (m + 1)) % 12 = m + 1 := by omega
    rw [h12, h12b, normDay_borrow _ _ _ _ (by omega)]
    rw [if_neg (by omega), if_neg (by omega)]
    have hm : m + 1 - 1 = m := by omega
    rw [hm]
    rw [normDay_in_range _ _ _ _ (by omega) (by omega)]
    norm_num

/-! ### Facts about decimal strings -/

theorem digitChar_spec (n : Nat) (h : n < 10) :
    (digitChar n).isDigit = true ∧ (digitChar n).toNat = 48 + n ∧ digitChar n ≠ '-' := by
  interval_cases n <;> decide

theorem digitsValN_append (l : List Char) (c : Char) :
    digitsValN (l ++ [c]) = 10 * digitsValN l + (c.toNat - 48) := by
  unfold digitsValN
  rw [List.foldl_append]
  rfl

theorem digitsValN_zeros (k : Nat) (cs : List Char) :
    digitsValN (List.replicate k '0' ++ cs) = digitsValN cs := by
  induction k with
  | zero => rfl
  | succ n ih =>
    rw [List.replicate_succ, List.cons_append]
    simpa [digitsValN, List.foldl_cons] using ih

theorem natDigitsAux_lt10 (fuel n : Nat) (h : n < 10) :
    natDigitsAux (fuel + 1) n = [digitChar n] := by
  simp [natDigitsAux, h]

theorem natDigitsAux_spec (fuel : Nat) : ∀ n, n < 10 ^ (fuel + 1) →
    natDigitsAux (fuel + 1) n ≠ [] ∧
    (∀ c ∈ natDigitsAux (fuel + 1) n, c.isDigit = true ∧ c ≠ '-') ∧
    digitsValN (natDigitsAux (fuel + 1) n) = n := by
  induction fuel with
  | zero =>
    intro n h
    have h10 : n < 10 := by simpa using h
    obtain ⟨hd, ht, hne⟩ := digitChar_spec n h10
    rw [natDigitsAux_lt10 _ _ h10]
    refine ⟨by simp, ?_, ?_⟩
    · intro c hc
      simp only [List.mem_singleton] at hc
      subst hc
      exact ⟨hd, hne⟩
    · simp only [digitsValN, List.foldl_cons, List.foldl_nil, ht]
      omega
  | succ f ih =>
    intro n h
    by_cases h10 : n < 10
    · obtain ⟨hd, ht, hne⟩ := digitChar_spec n h10
      rw [natDigitsAux_lt10 _ _ h10]
      refine ⟨by simp, ?_, ?_⟩
      · intro c hc
        simp only [List.mem_singleton] at hc
        subst hc
        exact ⟨hd, hne⟩
      · simp only [digitsValN, List.foldl_cons, List.foldl_nil, ht]
        omega
    · have hrec : natDigitsAux (f + 1 + 1) n =
          natDigitsAux (f + 1) (n / 10) ++ [digitChar (n % 10)] := by
        simp [natDigitsAux, h10]
      have hdiv : n / 10 < 10 ^ (f + 1) := by
        have hp : 10 ^ (f + 1 + 1) = 10 ^ (f + 1) * 10 := pow_succ 10 (f + 1)
        omega
      obtain ⟨hne, hall, hval⟩ := ih (n / 10) hdiv
      obtain ⟨hd2, ht2, hne2⟩ := digitChar_spec (n % 10) (Nat.mod_lt n (by omega))
      rw [hrec]
      refine ⟨by simp, ?_, ?_⟩
      · intro c hc
        rcases List.mem_append.mp hc with hc | hc
        · exact hall c hc
        · simp only [List.mem_singleton] at hc
          subst hc
          exact ⟨hd2, hne2⟩
      · rw [digitsValN_append, hval, ht2]
        omega

theorem natDigits_spec (n : Nat) :
    natDigits n ≠ [] ∧
    (∀ c ∈ natDigits n, c.isDigit = true ∧ c ≠ '-') ∧
    digitsValN (natDigits n) = n := by
  have h : n < 10 ^ (n + 1) :=
    lt_of_lt_of_le (Nat.lt_pow_self (by norm_num) n)
      (Nat.pow_le_pow_right (by norm_num) (Nat.le_succ n))
  exact natDigitsAux_spec n n h

theorem intDigits_nonneg (i : Int) (h : 0 ≤ i) : intDigits i = natDigits i.natAbs := by
  unfold intDigits
  rw [if_neg (by omega)]

theorem jsNumber_eq_val (cs : List Char) (h1 : cs ≠ [])
    (h2 : ∀ c ∈ cs, c.isDigit = true) :
    jsNumber cs = some (Int.ofNat (digitsValN cs)) := by
  unfold jsNumber
  rw [if_neg h1, if_pos (List.all_eq_true.mpr h2)]

theorem padStart2_ne_nil (cs : List Char) (h : cs ≠ []) : padStart2 cs ≠ [] := by
  unfold padStart2
  split
  · exact h
  · simp [h]

theorem mem_padStart2 (cs : List Char) (c : Char) (h : c ∈ padStart2 cs) :
    c = '0' ∨ c ∈ cs := by
  unfold padStart2 at h
  split at h
  · exact Or.inr h
  · rcases List.mem_append.mp h with h | h
    · exact Or.inl (List.eq_of_mem_replicate h)
    · exact Or.inr h

theorem digitsValN_padStart2 (cs : List Char) :
    digitsValN (padStart2 cs) = digitsValN cs := by
  unfold padStart2
  split
  · rfl
  · exact digitsValN_zeros _ cs

/-- `Number` recovers `n` from the possibly zero-padded digits of `n`. -/
theorem jsNumber_padStart2_natDigits (n : Nat) :
    jsNumber (padStart2 (natDigits n)) = some (Int.ofNat n) := by
  obtain ⟨hne, hall, hval⟩ := natDigits_spec n
  rw [jsNumber_eq_val _ (padStart2_ne_nil _ hne) ?digits, digitsValN_padStart2, hval]
  case digits =>
    intro c hc
    rcases mem_padStart2 _ _ hc with h | h
    · subst h; decide
    · exact (hall c h).1

theorem jsNumber_natDigits (n : Nat) : jsNumber (natDigits n) = some (Int.ofNat n) := by
  obtain ⟨hne, hall, hval⟩ := natDigits_spec n
  rw [jsNumber_eq_val _ hne fun c hc => (hall c hc).1, hval]

theorem splitDash_no_dash (cs : List Char) (h : ∀ c ∈ cs, c ≠ '-') :
    splitDash cs = [cs] := by
  induction cs with
  | nil => rfl
  | cons c rest ih =>
    have hc : c ≠ '-' := h c (by simp)
    have hrest := ih fun x hx => h x (by simp [hx])
    simp only [splitDash, if_neg hc, hrest]

theorem splitDash_append (a rest : List Char) (h : ∀ c ∈ a, c ≠ '-') :
    splitDash (a ++ '-' :: rest) = a :: splitDash rest := by
  induction a with
  | nil => simp [splitDash]
  | cons c t ih =>
    have hc : c ≠ '-' := h c (by simp)
    have ht := ih fun x hx => h x (by simp [hx])
    simp only [List.cons_append, splitDash, if_neg hc, List.append_eq, ht]

theorem formatYMD_date_data (c : CDate) :
    (formatYMD (.date c)).data =
      intDigits c.year ++ '-' ::
        (padStart2 (intDigits (c.month + 1)) ++ '-' :: padStart2 (intDigits c.day)) := rfl

/-- Parsing a formatted canonical date whose year is at least 100
recovers the date exactly; below 100 the two-digit-year rule of the
constructor breaks the round trip. -/
theorem parseYMD_formatYMD (c : CDate) (hc : Canonical c) (hy : 100 ≤ c.year) :
    parseYMD (formatYMD (.date c)) = some c := by
  obtain ⟨hm0, hm1, hd1, hd2⟩ := hc
  obtain ⟨hyne, hyall, -⟩ := natDigits_spec c.year.natAbs
  have hY : intDigits c.year = natDigits c.year.natAbs := intDigits_nonneg _ (by omega)
  have hM : intDigits (c.month + 1) = natDigits (c.month + 1).natAbs :=
    intDigits_nonneg _ (by omega)
  have hD : intDigits c.day = natDigits c.day.natAbs := intDigits_nonneg _ (by omega)
  have hMnd : ∀ x ∈ padStart2 (natDigits (c.month + 1).natAbs), x ≠ '-' := by
    intro x hx
    rcases mem_padStart2 _ _ hx with h | h
    · subst h; decide
    · exact ((natDigits_spec _).2.1 x h).2
  have hDnd : ∀ x ∈ padStart2 (natDigits c.day.natAbs), x ≠ '-' := by
    intro x hx
    rcases mem_padStart2 _ _ hx with h | h
    · subst h; decide
    · exact ((natDigits_spec _).2.1 x h).2
  have hsplit : splitDash ((formatYMD (.date c)).data) =
      [natDigits c.year.natAbs, padStart2 (natDigits (c.month + 1).natAbs),
        padStart2 (natDigits c.day.natAbs)] := by
    rw [formatYMD_date_data, hY, hM, hD,
      splitDash_append _ _ fun x hx => (hyall x hx).2,
      splitDash_append _ _ hMnd, splitDash_no_dash _ hDnd]
  simp only [parseYMD, hsplit, List.getElem?_cons_zero, List.getElem?_cons_succ,
    jsNumber_natDigits, jsNumber_padStart2_natDigits]
  have h1 : Int.ofNat c.year.natAbs = c.year := Int.natAbs_of_nonneg (by omega)
  have h2a : Int.ofNat (c.month + 1).natAbs = c.month + 1 := Int.natAbs_of_nonneg (by omega)
  have h2 : Int.ofNat (c.month + 1).natAbs - 1 = c.month := by rw [h2a]; ring
  have h3 : Int.ofNat c.day.natAbs = c.day := Int.natAbs_of_nonneg (by omega)
  rw [h1, h2, h3, mkDate_canonical _ _ _ hy hm0 hm1 hd1 hd2]

/-! ### Millisecond comparisons and rounding -/

/-- Under a bounded timezone, comparing millisecond values of local
midnights agrees with comparing their epoch days. -/
theorem msOf_lt_iff (off : Int → Int) (h : TZBounded off) (a b : CDate) :
    msOf off a < msOf off b ↔ epochOf a < epochOf b := by
  unfold msOf
  rcases lt_trichotomy (epochOf a) (epochOf b) with hlt | heq | hgt
  · have hb := h (epochOf a) (epochOf b)
    constructor <;> intro <;> omega
  · rw [heq]
    exact iff_of_false (lt_irrefl _) (lt_irrefl _)
  · have hb := h (epochOf a) (epochOf b)
    constructor <;> intro <;> omega

theorem dateLtB_iff (off : Int → Int) (h : TZBounded off) (a b : CDate) :
    dateLtB off (some a) (some b) = true ↔ epochOf a < epochOf b := by
  unfold dateLtB
  rw [decide_eq_true_eq]
  exact msOf_lt_iff off h a b

/-- Rounding a millisecond difference that is a whole number of days
plus a shift of less than half a day recovers the day count exactly. -/
theorem jsRoundDiv_exact (D δ : Int) (h : 2 * δ.natAbs < 86400000) :
    jsRoundDiv (86400000 * D + δ) 86400000 = D := by
  unfold jsRoundDiv
  norm_num
  omega

/-- `daysBetween` on two formatted canonical dates under any bounded
timezone is exactly the epoch-day difference. -/
theorem daysBetween_eq (off : Int → Int) (h : TZBounded off) (c1 c2 : CDate)
    (h1 : Canonical c1) (hy1 : 100 ≤ c1.year) (h2 : Canonical c2) (hy2 : 100 ≤ c2.year) :
    daysBetween off (formatYMD (.date c1)) (formatYMD (.date c2)) =
      some (epochOf c2 - epochOf c1) := by
  unfold daysBetween
  rw [parseYMD_formatYMD c1 h1 hy1, parseYMD_formatYMD c2 h2 hy2]
  unfold msOf
  show some (jsRoundDiv (86400000 * epochOf c2 + off (epochOf c2) -
      (86400000 * epochOf c1 + off (epochOf c1))) 86400000) = _
  have hb := h (epochOf c2) (epochOf c1)
  have hdiff : 86400000 * epochOf c2 + off (epochOf c2) -
      (86400000 * epochOf c1 + off (epochOf c1)) =
      86400000 * (epochOf c2 - epochOf c1) +
        (off (epochOf c2) - off (epochOf c1)) := by ring
  rw [hdiff, jsRoundDiv_exact _ _ hb]

/-! ### Facts about the grid builder -/

theorem getDay_bounds (c : CDate) : 0 ≤ getDay c ∧ getDay c < 7 :=
  ⟨Int.emod_nonneg _ (by norm_num), Int.emod_lt_of_pos _ (by norm_num)⟩

/-- Filtering a row whose first `min a n` slots are filled yields those
slots in order. -/
theorem filterMap_range_if_lt {α : Type} (n : Nat) (f : Nat → α) : ∀ a : Nat,
    ((List.range a).map fun i => if i < n then some (f i) else none).filterMap id
      = (List.range (min a n)).map f := by
  intro a
  induction a with
  | zero => simp
  | succ a ih =>
    rw [List.range_succ, List.map_append, List.filterMap_append, ih]
    by_cases h : a < n
    · have hmin : min (a + 1) n = min a n + 1 := by omega
      have hmin2 : min a n = a := by omega
      rw [hmin, hmin2, List.range_succ, List.map_append]
      simp [h]
    · have hmin : min (a + 1) n = min a n := by omega
      rw [hmin]
      simp [h]

/-- Filtering a row whose first `k` slots are padding yields the
remaining slots in order. -/
theorem filterMap_range_pad {α : Type} (k : Nat) (f : Nat → α) : ∀ a : Nat, k ≤ a →
    ((List.range a).map fun i => if i < k then none else some (f i)).filterMap id
      = (List.range (a - k)).map fun j => f (k + j) := by
  intro a
  induction a with
  | zero =>
    intro hk
    simp
  | succ a ih =>
    intro hk
    rcases Nat.lt_or_ge a k with h | h
    · have hk1 : k = a + 1 := by omega
      subst hk1
      have hall : ∀ i ∈ List.range (a + 1),
          (if i < a + 1 then (none : Option α) else some (f i)) = none := by
        intro i hi
        rw [List.mem_range] at hi
        simp [hi]
      rw [List.map_congr_left hall]
      simp
    · have ih2 := ih h
      rw [List.range_succ, List.map_append, List.filterMap_append, ih2]
      have hnot : ¬ a < k := by omega
      have hsub : a + 1 - k = (a - k) + 1 := by omega
      have ha : k + (a - k) = a := by omega
      rw [hsub, List.range_succ, List.map_append]
      simp [hnot, ha]

theorem row_filterMap (F : Int → String) (dc dim : Int) :
    ((List.range 7).map fun (i : Nat) =>
        if dc + (i : Int) ≤ dim then some (F (dc + (i : Int))) else none).filterMap id
      = (List.range (min 7 (dim + 1 - dc).toNat)).map fun (k : Nat) => F (dc + (k : Int)) := by
  have hcong : ∀ i ∈ List.range 7,
      (if dc + (i : Int) ≤ dim then some (F (dc + (i : Int))) else none)
        = (if i < (dim + 1 - dc).toNat then some (F (dc + (i : Int))) else none) := by
    intro i hi
    by_cases h : dc + (i : Int) ≤ dim
    · rw [if_pos h, if_pos (by omega)]
    · rw [if_neg h, if_neg (by omega)]
  rw [List.map_congr_left hcong,
    filterMap_range_if_lt ((dim + 1 - dc).toNat) (fun i : Nat => F (dc + (i : Int))) 7]

/-- Flattened and filtered, the `while` loop of `monthDays` yields
exactly the days `dc, dc + 1, …, dim`, provided the fuel covers them. -/
theorem weeksFrom_filterMap (y m dim : Int) : ∀ (fuel : Nat) (dc : Int), 1 ≤ dc →
    dim + 1 ≤ dc + 7 * fuel →
    ((weeksFrom y m dim fuel dc).flatten).filterMap id
      = (List.range (dim + 1 - dc).toNat).map
          fun (k : Nat) => formatYMD (.date (mkDate y m (dc + (k : Int)))) := by
  intro fuel
  induction fuel with
  | zero =>
    intro dc h1 h2
    have hz : (dim + 1 - dc).toNat = 0 := by omega
    simp [weeksFrom, hz]
  | succ f ih =>
    intro dc h1 h2
    by_cases hle : dc ≤ dim
    · have hw : weeksFrom y m dim (f + 1) dc =
          ((List.range 7).map fun (i : Nat) =>
            if dc + (i : Int) ≤ dim then
              some (formatYMD (.date (mkDate y m (dc + (i : Int))))) else none)
          :: weeksFrom y m dim f (dc + 7) := by
        simp [weeksFrom, hle]
      rw [hw, List.flatten_cons, List.filterMap_append,
        row_filterMap (fun k => formatYMD (.date (mkDate y m k))) dc dim,
        ih (dc + 7) (by omega) (by omega)]
      by_cases hbig : 7 ≤ dim + 1 - dc
      · have hmin : min 7 (dim + 1 - dc).toNat = 7 := by omega
        have hN : (dim + 1 - dc).toNat = 7 + (dim + 1 - (dc + 7)).toNat := by omega
        rw [hmin, hN, List.range_add, List.map_append, List.map_map]
        congr 1
        apply List.map_congr_left
        intro x hx
        exact congrArg (fun t => formatYMD (.date (mkDate y m t))) (by push_cast; ring)
      · have hmin : min 7 (dim + 1 - dc).toNat = (dim + 1 - dc).toNat := by omega
        have hz : (dim + 1 - (dc + 7)).toNat = 0 := by omega
        rw [hmin, hz]
        simp
    · have hw : weeksFrom y m dim (f + 1) dc = [] := by simp [weeksFrom, hle]
      have hz : (dim + 1 - dc).toNat = 0 := by omega
      rw [hw, hz]
      simp

/-- Unfolding of `monthDays` with the month length resolved. -/
theorem monthDays_eq (y m : Int) (hy : 100 ≤ y) (hm0 : 0 ≤ m) (hm1 : m ≤ 11) :
    monthDays y m =
      ((List.range 7).map fun (i : Nat) =>
        if (i : Int) < getDay (mkDate y m 1) then none
        else some (formatYMD (.date (mkDate y m ((i : Int) - getDay (mkDate y m 1) + 1)))))
      :: weeksFrom y m (daysInMonthC y m) 6 (8 - getDay (mkDate y m 1)) := by
  unfold monthDays
  show ((List.range 7).map fun (i : Nat) =>
        if (i : Int) < getDay (mkDate y m 1) then none
        else some (formatYMD (.date (mkDate y m ((i : Int) - getDay (mkDate y m 1) + 1)))))
      :: weeksFrom y m ((mkDate y (m + 1) 0).day) 6 (8 - getDay (mkDate y m 1)) = _
  rw [mkDate_day_zero y m hy hm0 hm1]

/-- Filtering the first week yields days `1 .. 7 - firstWeekday`. -/
theorem firstWeek_filterMap (y m fw : Int) (h0 : 0 ≤ fw) (h7 : fw < 7) :
    ((List.range 7).map fun (i : Nat) =>
        if (i : Int) < fw then none
        else some (formatYMD (.date (mkDate y m ((i : Int) - fw + 1))))).filterMap id
      = (List.range (7 - fw.toNat)).map
          fun (k : Nat) => formatYMD (.date (mkDate y m ((k : Int) + 1))) := by
  have hcong : ∀ i ∈ List.range 7,
      (if (i : Int) < fw then none
        else some (formatYMD (.date (mkDate y m ((i : Int) - fw + 1)))))
      = (if i < fw.toNat then none
        else some (formatYMD (.date (mkDate y m ((i : Int) - fw + 1))))) := by
    intro i hi
    by_cases h : (i : Int) < fw
    · rw [if_pos h, if_pos (by omega)]
    · rw [if_neg h, if_neg (by omega)]
  rw [List.map_congr_left hcong,
    filterMap_range_pad fw.toNat
      (fun i : Nat => formatYMD (.date (mkDate y m ((i : Int) - fw + 1)))) 7 (by omega)]
  apply List.map_congr_left
  intro j hj
  refine congrArg (fun t => formatYMD (.date (mkDate y m t))) ?_
  push_cast [Int.toNat_of_nonneg h0]
  ring

/-- The full grid content: the flattened grid, filtered of padding, is
exactly the formatted dates `1 .. daysInMonthC y m` of that month. -/
theorem monthDays_flat_content (y m : Int) (hy : 100 ≤ y) (hm0 : 0 ≤ m) (hm1 : m ≤ 11) :
    ((monthDays y m).flatten).filterMap id
      = (List.range (daysInMonthC y m).toNat).map
          fun (k : Nat) => formatYMD (.date ⟨y, m, (k : Int) + 1⟩) := by
  obtain ⟨hfw0, hfw7⟩ := getDay_bounds (mkDate y m 1)
  obtain ⟨hdim28, hdim31⟩ := daysInMonthC_bounds y m
  rw [monthDays_eq y m hy hm0 hm1, List.flatten_cons, List.filterMap_append,
    firstWeek_filterMap y m _ hfw0 hfw7,
    weeksFrom_filterMap y m _ 6 _ (by omega) (by push_cast; omega)]
  set fw := getDay (mkDate y m 1) with hfwdef
  have hsplit : (daysInMonthC y m).toNat =
      (7 - fw.toNat) + (daysInMonthC y m + 1 - (8 - fw)).toNat := by omega
  rw [hsplit, List.range_add, List.map_append, List.map_map]
  congr 1
  · apply List.map_congr_left
    intro k hk
    rw [List.mem_range] at hk
    rw [mkDate_canonical y m _ hy hm0 hm1 (by omega) (by omega)]
  · apply List.map_congr_left
    intro k hk
    rw [List.mem_range] at hk
    simp only [Function.comp_apply]
    rw [mkDate_canonical y m _ hy hm0 hm1 (by omega) (by omega)]
    exact congrArg (fun t => formatYMD (.date (CDate.mk y m t))) (by omega)

theorem weeksFrom_mem_length (y m dim : Int) : ∀ (fuel : Nat) (dc : Int)
    (w : List (Option String)), w ∈ weeksFrom y m dim fuel dc → w.length = 7 := by
  intro fuel
  induction fuel with
  | zero =>
    intro dc w hw
    simp [weeksFrom] at hw
  | succ f ih =>
    intro dc w hw
    by_cases hle : dc ≤ dim
    · simp only [weeksFrom, if_pos hle, List.mem_cons] at hw
      rcases hw with rfl | hw
      · simp
      · exact ih _ _ hw
    · simp [weeksFrom, hle] at hw

/-- Every week of the grid, the first and last included, has exactly
seven slots. -/
theorem monthDays_mem_length (y m : Int) :
    ∀ w ∈ monthDays y m, w.length = 7 := by
  intro w hw
  unfold monthDays at hw
  simp only [List.mem_cons] at hw
  rcases hw with rfl | hw
  · simp
  · exact weeksFrom_mem_length _ _ _ _ _ _ hw

theorem flatten_length_of_weeks (L : List (List (Option String)))
    (h : ∀ w ∈ L, w.length = 7) : L.flatten.length = 7 * L.length := by
  induction L with
  | nil => simp
  | cons a t ih =>
    rw [List.flatten_cons, List.length_append, h a (by simp),
      ih fun w hw => h w (by simp [hw])]
    simp only [List.length_cons]
    ring

/-- The first grid row is `null` strictly before the first weekday
column and holds the 1st of the month at that column. -/
theorem monthDays_first_week_cols (y m : Int) (hy : 100 ≤ y) (hm0 : 0 ≤ m)
    (hm1 : m ≤ 11) :
    (∀ i : Nat, (i : Int) < getDay (mkDate y m 1) →
      ((monthDays y m).headD [])[i]? = some none)
    ∧ ((monthDays y m).headD [])[(getDay (mkDate y m 1)).toNat]?
        = some (some (formatYMD (.date ⟨y, m, 1⟩))) := by
  obtain ⟨hfw0, hfw7⟩ := getDay_bounds (mkDate y m 1)
  obtain ⟨hdim28, hdim31⟩ := daysInMonthC_bounds y m
  rw [monthDays_eq y m hy hm0 hm1]
  simp only [List.headD_cons]
  constructor
  · intro i hi
    rw [List.getElem?_map, List.getElem?_range (by omega)]
    simp [hi]
  · rw [List.getElem?_map, List.getElem?_range (by omega)]
    have hcast : (((getDay (mkDate y m 1)).toNat : Nat) : Int) = getDay (mkDate y m 1) :=
      Int.toNat_of_nonneg hfw0
    show some (if (((getDay (mkDate y m 1)).toNat : Nat) : Int) < getDay (mkDate y m 1)
      then none
      else some (formatYMD (.date (mkDate y m
        ((((getDay (mkDate y m 1)).toNat : Nat) : Int) - getDay (mkDate y m 1) + 1))))) = _
    rw [hcast, if_neg (by omega)]
    have harg : getDay (mkDate y m 1) - getDay (mkDate y m 1) + 1 = 1 := by ring
    rw [harg, mkDate_canonical y m 1 hy hm0 hm1 (by omega) (by omega)]

/-! ### Claim theorems for the grid builder -/

/-- C1: for every valid `(year, month)` — canonical month index and a
year of at least 100, where the constructor is faithful — the grid
builder's flattened output filtered to non-empty slots is exactly the
formatted dates from the 1st to the last day of that month in calendar
order (leap years included via the month lengths), and the first date
of the month sits at the column index equal to its weekday with
Sunday = 0. -/
theorem monthDays_content_correct (y m : Int) (hy : 100 ≤ y) (hm0 : 0 ≤ m)
    (hm1 : m ≤ 11) :
    ((monthDays y m).flatten).filterMap id
      = (List.range (daysInMonthC y m).toNat).map
          (fun (k : Nat) => formatYMD (.date ⟨y, m, (k : Int) + 1⟩))
    ∧ (∀ i : Nat, (i : Int) < getDay ⟨y, m, 1⟩ →
        ((monthDays y m).headD [])[i]? = some none)
    ∧ ((monthDays y m).headD [])[(getDay ⟨y, m, 1⟩).toNat]?
        = some (some (formatYMD (.date ⟨y, m, 1⟩))) := by
  obtain ⟨hdim28, hdim31⟩ := daysInMonthC_bounds y m
  have hmk : mkDate y m 1 = ⟨y, m, 1⟩ :=
    mkDate_canonical y m 1 hy hm0 hm1 (by omega) (by omega)
  obtain ⟨hc, hd⟩ := monthDays_first_week_cols y m hy hm0 hm1
  rw [hmk] at hc hd
  exact ⟨monthDays_flat_content y m hy hm0 hm1, hc, hd⟩

/-- Witness for C1 at February 2024, a leap year. -/
theorem monthDays_content_correct_witness :
    ((100 : Int) ≤ 2024 ∧ (0 : Int) ≤ 1 ∧ (1 : Int) ≤ 11
      ∧ ((0 : Nat) : Int) < getDay ⟨2024, 1, 1⟩) ∧
    (((monthDays 2024 1).flatten).filterMap id
      = (List.range (daysInMonthC 2024 1).toNat).map
          (fun (k : Nat) => formatYMD (.date ⟨2024, 1, (k : Int) + 1⟩))
    ∧ ((monthDays 2024 1).headD [])[(0 : Nat)]? = some none
    ∧ ((monthDays 2024 1).headD [])[(getDay ⟨2024, 1, 1⟩).toNat]?
        = some (some (formatYMD (.date ⟨2024, 1, 1⟩)))) :=
  ⟨⟨by norm_num, by norm_num, by norm_num, by decide⟩,
    (monthDays_content_correct 2024 1 (by norm_num) (by norm_num) (by norm_num)).1,
    (monthDays_content_correct 2024 1 (by norm_num) (by norm_num) (by norm_num)).2.1
      0 (by decide),
    (monthDays_content_correct 2024 1 (by norm_num) (by norm_num) (by norm_num)).2.2⟩

/-- C10: every week row the grid builder produces, the first and the
last included, has length exactly 7, with padding slots as explicit
`none` values; consequently the flattened grid length is a multiple of
7.  This holds unconditionally. -/
theorem monthDays_rows_length_seven (y m : Int) :
    (∀ w ∈ monthDays y m, w.length = 7)
    ∧ (monthDays y m).flatten.length % 7 = 0 := by
  refine ⟨monthDays_mem_length y m, ?_⟩
  rw [flatten_length_of_weeks _ (monthDays_mem_length y m)]
  omega

/-- Witness for C10 at February 2024: the first week is a grid row of
length 7 and the flattened grid length is a multiple of 7. -/
theorem monthDays_rows_length_seven_witness :
    ([none, none, none, none, some "2024-02-01", some "2024-02-02", some "2024-02-03"]
        ∈ monthDays 2024 1) ∧
    ([none, none, none, none, some "2024-02-01", some "2024-02-02",
        some "2024-02-03"].length = 7
    ∧ (monthDays 2024 1).flatten.length % 7 = 0) :=
  ⟨by decide,
    (monthDays_rows_length_seven 2024 1).1
      [none, none, none, none, some "2024-02-01", some "2024-02-02", some "2024-02-03"]
      (by decide),
    (monthDays_rows_length_seven 2024 1).2⟩

/-- C8 counterexample: in January 2024 the final week row has exactly
7 slots — not fewer — and its trailing slots are explicit empties, so
the final row IS right-padded with empty slots. -/
theorem lastWeek_not_short_counterexample :
    ((monthDays 2024 0).getLast?.getD []).length = 7
    ∧ ((monthDays 2024 0).getLast?.getD [])[4]? = some none
    ∧ ((monthDays 2024 0).getLast?.getD [])[6]? = some none := by decide

/-- C8 amended: the final week row, like every row, has exactly 7
slots, right-padded with explicit empty (`none`) slots; its date
content may be fewer than 7 entries and ends at the month's last
day. -/
theorem lastWeek_padded (y m : Int) (hy : 100 ≤ y) (hm0 : 0 ≤ m) (hm1 : m ≤ 11) :
    (∀ w ∈ monthDays y m, w.length = 7)
    ∧ ((monthDays y m).flatten.filterMap id).getLast?
        = some (formatYMD (.date ⟨y, m, daysInMonthC y m⟩)) := by
  obtain ⟨hdim28, hdim31⟩ := daysInMonthC_bounds y m
  refine ⟨monthDays_mem_length y m, ?_⟩
  rw [monthDays_flat_content y m hy hm0 hm1, List.getLast?_eq_getElem?,
    List.length_map, List.length_range,
    List.getElem?_map, List.getElem?_range (by omega)]
  exact congrArg (fun t => some (formatYMD (.date (CDate.mk y m t)))) (by omega)

/-- Witness for the amended C8 at January 2024: the last week is a
member of the grid, has length 7, and the filtered content ends at
January 31. -/
theorem lastWeek_padded_witness :
    ((100 : Int) ≤ 2024 ∧ (0 : Int) ≤ 0 ∧ (0 : Int) ≤ 11
      ∧ [some "2024-01-28", some "2024-01-29", some "2024-01-30", some "2024-01-31",
          none, none, none] ∈ monthDays 2024 0) ∧
    ([some "2024-01-28", some "2024-01-29", some "2024-01-30", some "2024-01-31",
        none, none, none].length = 7
    ∧ ((monthDays 2024 0).flatten.filterMap id).getLast?
        = some (formatYMD (.date ⟨2024, 0, daysInMonthC 2024 0⟩))) :=
  ⟨⟨by norm_num, by norm_num, by norm_num, by decide⟩,
    (lastWeek_padded 2024 0 (by norm_num) (by norm_num) (by norm_num)).1
      [some "2024-01-28", some "2024-01-29", some "2024-01-30", some "2024-01-31",
        none, none, none] (by decide),
    (lastWeek_padded 2024 0 (by norm_num) (by norm_num) (by norm_num)).2⟩

/-! ### The selection state machine -/

theorem formatYMD_date_ne_empty (c : CDate) : formatYMD (.date c) ≠ "" := by
  intro h
  have hd := congrArg String.data h
  rw [formatYMD_date_data] at hd
  simp at hd

theorem truthyS_some (s : String) (h : s ≠ "") : truthyS (some s) = true := by
  simp [truthyS, h]

/-- A click on a falsy slot (padding `null`, or the empty string) is a
no-op in every state. -/
theorem onDayClick_noop (off : Int → Int) (s : AppState) :
    onDayClick off none s = s := by
  simp [onDayClick, truthyS]

/-- First click: records the start, clears end and message. -/
theorem onDayClick_first (off : Int → Int) (d : String) (hd : d ≠ "") (s : AppState)
    (h : s.selectStart = none) :
    onDayClick off (some d) s =
      { s with selectStart := some d, selectEnd := none, message := none } := by
  simp [onDayClick, truthyS, hd, h]

/-- Second click, not chronologically earlier: completes the range. -/
theorem onDayClick_second_ge (off : Int → Int) (d : String) (hd : d ≠ "")
    (s : AppState) (a : String) (ha : s.selectStart = some a) (hane : a ≠ "")
    (hend : s.selectEnd = none)
    (hcmp : dateLtB off (parseYMD d) (parseYMD a) = false) :
    onDayClick off (some d) s = { s with selectEnd := some d } := by
  simp [onDayClick, truthyS, hd, ha, hane, hend, hcmp]

/-- Second click, chronologically earlier: swaps so that start ≤ end. -/
theorem onDayClick_second_lt (off : Int → Int) (d : String) (hd : d ≠ "")
    (s : AppState) (a : String) (ha : s.selectStart = some a) (hane : a ≠ "")
    (hend : s.selectEnd = none)
    (hcmp : dateLtB off (parseYMD d) (parseYMD a) = true) :
    onDayClick off (some d) s =
      { s with selectEnd := some a, selectStart := some d } := by
  simp [onDayClick, truthyS, hd, ha, hane, hend, hcmp]

/-- Click on a complete selection: restarts with a fresh start. -/
theorem onDayClick_restart (off : Int → Int) (d : String) (hd : d ≠ "")
    (s : AppState) (a b : String) (ha : s.selectStart = some a) (hane : a ≠ "")
    (hb : s.selectEnd = some b) (hbne : b ≠ "") :
    onDayClick off (some d) s = { s with selectStart := some d, selectEnd := none } := by
  simp [onDayClick, truthyS, hd, ha, hane, hb, hbne]

/-- C2: from the Empty state, clicking `d1` then `d2` with `d1 < d2`
yields start `d1`, end `d2`; the reversed click order yields the same
normalized pair; any click on a Complete selection yields a fresh start
with no end; and a click on an empty (padding) slot changes nothing in
any state. -/
theorem selection_machine_correct (off : Int → Int) (htz : TZBounded off)
    (c1 c2 c3 : CDate) (h1 : Canonical c1) (hy1 : 100 ≤ c1.year)
    (h2 : Canonical c2) (hy2 : 100 ≤ c2.year)
    (h3 : Canonical c3) (hy3 : 100 ≤ c3.year)
    (hlt : epochOf c1 < epochOf c2) :
    (∀ s : AppState, s.selectStart = none →
      ((onDayClick off (some (formatYMD (.date c2)))
          (onDayClick off (some (formatYMD (.date c1))) s)).selectStart
            = some (formatYMD (.date c1))
        ∧ (onDayClick off (some (formatYMD (.date c2)))
          (onDayClick off (some (formatYMD (.date c1))) s)).selectEnd
            = some (formatYMD (.date c2))))
    ∧ (∀ s : AppState, s.selectStart = none →
      ((onDayClick off (some (formatYMD (.date c1)))
          (onDayClick off (some (formatYMD (.date c2))) s)).selectStart
            = some (formatYMD (.date c1))
        ∧ (onDayClick off (some (formatYMD (.date c1)))
          (onDayClick off (some (formatYMD (.date c2))) s)).selectEnd
            = some (formatYMD (.date c2))))
    ∧ (∀ (s : AppState) (a b : String), s.selectStart = some a → a ≠ "" →
        s.selectEnd = some b → b ≠ "" →
        ((onDayClick off (some (formatYMD (.date c3))) s).selectStart
            = some (formatYMD (.date c3))
          ∧ (onDayClick off (some (formatYMD (.date c3))) s).selectEnd = none))
    ∧ (∀ s : AppState, onDayClick off none s = s) := by
  have hne1 := formatYMD_date_ne_empty c1
  have hne2 := formatYMD_date_ne_empty c2
  have hp1 := parseYMD_formatYMD c1 h1 hy1
  have hp2 := parseYMD_formatYMD c2 h2 hy2
  refine ⟨?_, ?_, ?_, fun s => onDayClick_noop off s⟩
  · intro s hs
    rw [onDayClick_first off _ hne1 s hs]
    have hcmp : dateLtB off (parseYMD (formatYMD (.date c2)))
        (parseYMD (formatYMD (.date c1))) = false := by
      rw [hp1, hp2]
      unfold dateLtB
      rw [decide_eq_false_iff_not, msOf_lt_iff off htz]
      omega
    rw [onDayClick_second_ge off _ hne2 _ _ rfl hne1 rfl hcmp]
    exact ⟨rfl, rfl⟩
  · intro s hs
    rw [onDayClick_first off _ hne2 s hs]
    have hcmp : dateLtB off (parseYMD (formatYMD (.date c1)))
        (parseYMD (formatYMD (.date c2))) = true := by
      rw [hp1, hp2]
      unfold dateLtB
      rw [decide_eq_true_eq, msOf_lt_iff off htz]
      omega
    rw [onDayClick_second_lt off _ hne1 _ _ rfl hne2 rfl hcmp]
    exact ⟨rfl, rfl⟩
  · intro s a b ha hane hb hbne
    rw [onDayClick_restart off _ (formatYMD_date_ne_empty c3) s a b ha hane hb hbne]
    exact ⟨rfl, rfl⟩

/-- Witness for C2 with a UTC-like timezone: from an empty selection,
clicking 2024-01-10 then 2024-01-15 yields that normalized range. -/
theorem selection_machine_correct_witness :
    (Canonical ⟨2024, 0, 10⟩ ∧ Canonical ⟨2024, 0, 15⟩ ∧ Canonical ⟨2024, 0, 20⟩
      ∧ epochOf ⟨2024, 0, 10⟩ < epochOf ⟨2024, 0, 15⟩) ∧
    ((onDayClick tzZero (some (formatYMD (.date ⟨2024, 0, 15⟩)))
        (onDayClick tzZero (some (formatYMD (.date ⟨2024, 0, 10⟩)))
          ⟨[], [], none, none, none, none, false⟩)).selectStart
        = some (formatYMD (.date ⟨2024, 0, 10⟩))
    ∧ (onDayClick tzZero (some (formatYMD (.date ⟨2024, 0, 15⟩)))
        (onDayClick tzZero (some (formatYMD (.date ⟨2024, 0, 10⟩)))
          ⟨[], [], none, none, none, none, false⟩)).selectEnd
        = some (formatYMD (.date ⟨2024, 0, 15⟩))) :=
  ⟨⟨by decide, by decide, by decide, by decide⟩,
    (selection_machine_correct tzZero (fun n m => by simp [tzZero])
      ⟨2024, 0, 10⟩ ⟨2024, 0, 15⟩ ⟨2024, 0, 20⟩ (by decide) (by norm_num)
      (by decide) (by norm_num) (by decide) (by norm_num) (by decide)).1
      ⟨[], [], none, none, none, none, false⟩ rfl⟩

/-! ### The assign operation -/

/-- On any failed precondition, `tryAssign` only sets the message. -/
theorem tryAssign_fail (newId : String) (s : AppState) (store : List Vacation)
    (h : truthyS s.selectStart = false ∨ truthyS s.selectEnd = false
      ∨ truthyS s.assignEmployeeId = false ∨ s.db = false) :
    (tryAssign newId s store).2 = store
    ∧ (tryAssign newId s store).1 =
        { s with message := (tryAssign newId s store).1.message } := by
  by_cases h1 : truthyS s.selectStart = true
  · by_cases h2 : truthyS s.selectEnd = true
    · by_cases h3 : truthyS s.assignEmployeeId = true
      · have h4 : s.db = false := by
          rcases h with h | h | h | h
          · rw [h1] at h; exact absurd h (by simp)
          · rw [h2] at h; exact absurd h (by simp)
          · rw [h3] at h; exact absurd h (by simp)
          · exact h
        simp [tryAssign, h1, h2, h3, h4]
      · rw [Bool.not_eq_true] at h3
        simp [tryAssign, h1, h2, h3]
    · rw [Bool.not_eq_true] at h2
      simp [tryAssign, h1, h2]
  · rw [Bool.not_eq_true] at h1
    simp [tryAssign, h1]

/-- When all preconditions hold, `tryAssign` appends exactly one
vacation record with the selected range and resets the selection. -/
theorem tryAssign_success (newId : String) (s : AppState) (store : List Vacation)
    (h1 : truthyS s.selectStart = true) (h2 : truthyS s.selectEnd = true)
    (h3 : truthyS s.assignEmployeeId = true) (h4 : s.db = true) :
    tryAssign newId s store =
      ({ s with
          selectStart := none
          selectEnd := none
          assignEmployeeId := none
          message := some "Vacaciones asignadas correctamente." },
        store ++ [{ id := newId, employeeId := s.assignEmployeeId.getD "",
                    start := s.selectStart.getD "", endDate := s.selectEnd.getD "" }]) := by
  unfold tryAssign clearSelection
  simp [h1, h2, h3, h4]

/-- C3: the assign operation appends to the remote store exactly when
the selection is complete, an employee is chosen, and the store handle
exists; on any failed precondition it changes nothing but the user
message (store and selection untouched); on success it appends exactly
one `Vacation` record carrying the selected employee id and range — for
every prior store contents, overlapping or not, with no overlap check —
and resets the selection to empty. -/
theorem tryAssign_correct (newId : String) (s : AppState) (store : List Vacation) :
    (¬ (truthyS s.selectStart = true ∧ truthyS s.selectEnd = true
        ∧ truthyS s.assignEmployeeId = true ∧ s.db = true) →
      ((tryAssign newId s store).2 = store
        ∧ (tryAssign newId s store).1 =
            { s with message := (tryAssign newId s store).1.message }))
    ∧ ((truthyS s.selectStart = true ∧ truthyS s.selectEnd = true
        ∧ truthyS s.assignEmployeeId = true ∧ s.db = true) →
      ((tryAssign newId s store).2
          = store ++ [{ id := newId, employeeId := s.assignEmployeeId.getD "",
                        start := s.selectStart.getD "",
                        endDate := s.selectEnd.getD "" }]
        ∧ (tryAssign newId s store).2 ≠ store
        ∧ (tryAssign newId s store).1.selectStart = none
        ∧ (tryAssign newId s store).1.selectEnd = none
        ∧ (tryAssign newId s store).1.assignEmployeeId = none)) := by
  constructor
  · intro hP
    apply tryAssign_fail
    by_cases h1 : truthyS s.selectStart = true
    · by_cases h2 : truthyS s.selectEnd = true
      · by_cases h3 : truthyS s.assignEmployeeId = true
        · have h4 : ¬ s.db = true := fun h => hP ⟨h1, h2, h3, h⟩
          exact Or.inr (Or.inr (Or.inr (by rwa [Bool.not_eq_true] at h4)))
        · exact Or.inr (Or.inr (Or.inl (by rwa [Bool.not_eq_true] at h3)))
      · exact Or.inr (Or.inl (by rwa [Bool.not_eq_true] at h2))
    · exact Or.inl (by rwa [Bool.not_eq_true] at h1)
  · rintro ⟨h1, h2, h3, h4⟩
    rw [tryAssign_success newId s store h1 h2 h3 h4]
    refine ⟨rfl, ?_, rfl, rfl, rfl⟩
    intro hcontra
    have hlen := congrArg List.length hcontra
    simp at hlen

/-- Witness for C3: a complete selection assigned to an employee over a
store that already contains an overlapping vacation for the same
employee still appends. -/
theorem tryAssign_correct_witness :
    (truthyS (some "2024-01-10") = true ∧ truthyS (some "2024-01-15") = true
      ∧ truthyS (some "emp1") = true ∧ true = true) ∧
    ((tryAssign "v2"
        ⟨[], [], some "2024-01-10", some "2024-01-15", some "emp1", none, true⟩
        [⟨"v1", "emp1", "2024-01-12", "2024-01-20"⟩]).2
      = [⟨"v1", "emp1", "2024-01-12", "2024-01-20"⟩]
        ++ [{ id := "v2",
              employeeId := (some "emp1").getD "",
              start := (some "2024-01-10").getD "",
              endDate := (some "2024-01-15").getD "" }]
    ∧ (tryAssign "v2"
        ⟨[], [], some "2024-01-10", some "2024-01-15", some "emp1", none, true⟩
        [⟨"v1", "emp1", "2024-01-12", "2024-01-20"⟩]).2
          ≠ [⟨"v1", "emp1", "2024-01-12", "2024-01-20"⟩]
    ∧ (tryAssign "v2"
        ⟨[], [], some "2024-01-10", some "2024-01-15", some "emp1", none, true⟩
        [⟨"v1", "emp1", "2024-01-12", "2024-01-20"⟩]).1.selectStart = none
    ∧ (tryAssign "v2"
        ⟨[], [], some "2024-01-10", some "2024-01-15", some "emp1", none, true⟩
        [⟨"v1", "emp1", "2024-01-12", "2024-01-20"⟩]).1.selectEnd = none
    ∧ (tryAssign "v2"
        ⟨[], [], some "2024-01-10", some "2024-01-15", some "emp1", none, true⟩
        [⟨"v1", "emp1", "2024-01-12", "2024-01-20"⟩]).1.assignEmployeeId = none) :=
  ⟨⟨by decide, by decide, by decide, rfl⟩,
    (tryAssign_correct "v2"
      ⟨[], [], some "2024-01-10", some "2024-01-15", some "emp1", none, true⟩
      [⟨"v1", "emp1", "2024-01-12", "2024-01-20"⟩]).2
      ⟨by decide, by decide, by decide, rfl⟩⟩

/-! ### The remove-employee cascade -/

theorem applyOps_delVac_employees : ∀ (ids : List String) (st : Store),
    (applyOps (ids.map StoreOp.delVac) st).employees = st.employees := by
  intro ids
  induction ids with
  | nil => intro st; rfl
  | cons i t ih =>
    intro st
    show (applyOps (t.map StoreOp.delVac) (applyOp st (.delVac i))).employees = _
    rw [ih]
    rfl

theorem mem_applyOps_delVac : ∀ (ids : List String) (st : Store) (v : Vacation),
    v ∈ (applyOps (ids.map StoreOp.delVac) st).vacations →
      v ∈ st.vacations ∧ v.id ∉ ids := by
  intro ids
  induction ids with
  | nil =>
    intro st v hv
    exact ⟨hv, by simp⟩
  | cons i t ih =>
    intro st v hv
    have hstep : applyOps ((i :: t).map StoreOp.delVac) st
        = applyOps (t.map StoreOp.delVac) (applyOp st (.delVac i)) := rfl
    rw [hstep] at hv
    obtain ⟨hmem, hnin⟩ := ih _ v hv
    have hmem2 : v ∈ st.vacations.filter (fun w => w.id ≠ i) := hmem
    rw [List.mem_filter] at hmem2
    obtain ⟨hv2, hne⟩ := hmem2
    rw [decide_eq_true_eq] at hne
    refine ⟨hv2, ?_⟩
    simp only [List.mem_cons]
    rintro (h | h)
    · exact hne h
    · exact hnin h

/-- C4: under an available store handle, `removeEmployee` issues first
the employee deletion and then one independent deletion per vacation
whose `employeeId` matches; once every issued deletion has resolved, no
vacation referencing that employee id remains (and the employee record
is gone). -/
theorem removeEmployee_cascade (empId : String) (st : Store) :
    removeEmployeeOps true empId st.vacations
      = .delEmp empId ::
        ((st.vacations.filter fun v => v.employeeId == empId).map fun v => .delVac v.id)
    ∧ (∀ v ∈ (applyOps (removeEmployeeOps true empId st.vacations) st).vacations,
        v.employeeId ≠ empId)
    ∧ (∀ e ∈ (applyOps (removeEmployeeOps true empId st.vacations) st).employees,
        e.id ≠ empId) := by
  have hops : removeEmployeeOps true empId st.vacations
      = .delEmp empId ::
        ((st.vacations.filter fun v => v.employeeId == empId).map fun v => .delVac v.id) := by
    simp [removeEmployeeOps]
  have hmapmap : (st.vacations.filter fun v => v.employeeId == empId).map
        (fun v => StoreOp.delVac v.id)
      = ((st.vacations.filter fun v => v.employeeId == empId).map Vacation.id).map
          StoreOp.delVac := by
    rw [List.map_map]
    rfl
  have hstep : applyOps (StoreOp.delEmp empId ::
      ((st.vacations.filter fun v => v.employeeId == empId).map fun v => .delVac v.id)) st
      = applyOps ((st.vacations.filter fun v => v.employeeId == empId).map
          fun v => .delVac v.id) (applyOp st (.delEmp empId)) := rfl
  refine ⟨hops, ?_, ?_⟩
  · intro v hv heq
    rw [hops, hstep, hmapmap] at hv
    obtain ⟨hmem, hnin⟩ := mem_applyOps_delVac _ _ v hv
    apply hnin
    rw [List.mem_map]
    refine ⟨v, ?_, rfl⟩
    rw [List.mem_filter]
    exact ⟨hmem, by rw [heq]; exact beq_self_eq_true empId⟩
  · intro e he
    rw [hops, hstep, hmapmap, applyOps_delVac_employees] at he
    have he2 : e ∈ st.employees.filter (fun w => w.id ≠ empId) := he
    rw [List.mem_filter, decide_eq_true_eq] at he2
    exact he2.2

/-- Witness for C4: removing employee `"e1"` from a store holding two
of its vacations and one of employee `"e2"` leaves the latter's
vacation, whose employee id indeed differs from the removed one. -/
theorem removeEmployee_cascade_witness :
    ((⟨"v3", "e2", "2024-01-01", "2024-01-02"⟩ : Vacation)
        ∈ (applyOps (removeEmployeeOps true "e1"
            (Store.mk [⟨"e1", "Bob", "red"⟩]
              [⟨"v1", "e1", "2024-01-01", "2024-01-05"⟩,
               ⟨"v2", "e1", "2024-02-01", "2024-02-05"⟩,
               ⟨"v3", "e2", "2024-01-01", "2024-01-02"⟩]).vacations)
            (Store.mk [⟨"e1", "Bob", "red"⟩]
              [⟨"v1", "e1", "2024-01-01", "2024-01-05"⟩,
               ⟨"v2", "e1", "2024-02-01", "2024-02-05"⟩,
               ⟨"v3", "e2", "2024-01-01", "2024-01-02"⟩])).vacations) ∧
    (Vacation.mk "v3" "e2" "2024-01-01" "2024-01-02").employeeId ≠ "e1" :=
  ⟨by decide,
    (removeEmployee_cascade "e1"
      (Store.mk [⟨"e1", "Bob", "red"⟩]
        [⟨"v1", "e1", "2024-01-01", "2024-01-05"⟩,
         ⟨"v2", "e1", "2024-02-01", "2024-02-05"⟩,
         ⟨"v3", "e2", "2024-01-01", "2024-01-02"⟩])).2.1
      ⟨"v3", "e2", "2024-01-01", "2024-01-02"⟩ (by decide)⟩

/-! ### Round trip and date-utility claims -/

/-- C5 counterexample: the local-midnight date 0050-03-01 formats to
`"50-03-01"`, which the two-digit-year rule of the `Date` constructor
parses back as 1950-03-01, so the round trip fails at this date. -/
theorem parse_format_counterexample :
    Canonical ⟨50, 2, 1⟩
    ∧ formatYMD (.date ⟨50, 2, 1⟩) = "50-03-01"
    ∧ parseYMD (formatYMD (.date ⟨50, 2, 1⟩)) = some ⟨1950, 2, 1⟩
    ∧ parseYMD (formatYMD (.date ⟨50, 2, 1⟩)) ≠ some ⟨50, 2, 1⟩ := by decide

/-- C5 amended: `parseYMD (formatYMD d) = d` for every canonical
local-midnight date whose year is at least 100 (the two-digit-year rule
breaks years 0–99), and `formatYMD` is idempotent: on a string — in
particular an already-canonical `YYYY-MM-DD` one — it is the
identity. -/
theorem parse_format_roundtrip (c : CDate) (hc : Canonical c) (hy : 100 ≤ c.year) :
    parseYMD (formatYMD (.date c)) = some c
    ∧ (∀ x : DateOrString, formatYMD (.str (formatYMD x)) = formatYMD x) :=
  ⟨parseYMD_formatYMD c hc hy, fun _ => rfl⟩

/-- Witness for the amended C5 at 2024-01-15. -/
theorem parse_format_roundtrip_witness :
    (Canonical ⟨2024, 0, 15⟩ ∧ (100 : Int) ≤ 2024) ∧
    (parseYMD (formatYMD (.date ⟨2024, 0, 15⟩)) = some ⟨2024, 0, 15⟩
    ∧ formatYMD (.str (formatYMD (.date ⟨2024, 0, 15⟩)))
        = formatYMD (.date ⟨2024, 0, 15⟩)) :=
  ⟨⟨by decide, by norm_num⟩,
    (parse_format_roundtrip ⟨2024, 0, 15⟩ (by decide) (by norm_num)).1,
    (parse_format_roundtrip ⟨2024, 0, 15⟩ (by decide) (by norm_num)).2
      (.date ⟨2024, 0, 15⟩)⟩

/-- A concrete timezone with a daylight-saving transition: US Eastern
around 2024-03-10 (epoch day 19792), where local midnight shifts from
five hours behind UTC to four. -/
def tzUSEastern2024 : Int → Int := fun n => if n < 19792 then 18000000 else 14400000

theorem tzUSEastern2024_bounded : TZBounded tzUSEastern2024 := by
  intro n m
  unfold tzUSEastern2024
  split <;> split <;> decide

/-- Sanity: `daysBetween` across the 2024 spring-forward transition is
still exactly 2 (the rounded quotient of 47 hours by 24). -/
example : daysBetween tzUSEastern2024 "2024-03-09" "2024-03-11" = some 2 := by decide

/-- C6: `daysBetween` of a date with itself is 0; `daysBetween (a, b)`
is the negation of `daysBetween (b, a)`; and for every pair of
canonical formatted dates (years ≥ 100), under any timezone whose
local-midnight shifts differ by less than half a day — which covers all
daylight-saving transitions — the result is exactly the whole-day
calendar (epoch-day) difference. -/
theorem daysBetween_correct (off : Int → Int) (htz : TZBounded off) (c1 c2 : CDate)
    (h1 : Canonical c1) (hy1 : 100 ≤ c1.year) (h2 : Canonical c2)
    (hy2 : 100 ≤ c2.year) :
    daysBetween off (formatYMD (.date c1)) (formatYMD (.date c1)) = some 0
    ∧ daysBetween off (formatYMD (.date c1)) (formatYMD (.date c2))
        = some (epochOf c2 - epochOf c1)
    ∧ daysBetween off (formatYMD (.date c1)) (formatYMD (.date c2))
        = (daysBetween off (formatYMD (.date c2)) (formatYMD (.date c1))).map
            (fun x => -x) := by
  refine ⟨?_, daysBetween_eq off htz c1 c2 h1 hy1 h2 hy2, ?_⟩
  · have h := daysBetween_eq off htz c1 c1 h1 hy1 h1 hy1
    simpa using h
  · rw [daysBetween_eq off htz c1 c2 h1 hy1 h2 hy2,
      daysBetween_eq off htz c2 c1 h2 hy2 h1 hy1]
    show _ = some (-(epochOf c1 - epochOf c2))
    congr 1
    ring

/-- Witness for C6 across the 2024 US daylight-saving transition:
2024-03-09 to 2024-03-11. -/
theorem daysBetween_correct_witness :
    (Canonical ⟨2024, 2, 9⟩ ∧ (100 : Int) ≤ 2024 ∧ Canonical ⟨2024, 2, 11⟩) ∧
    (daysBetween tzUSEastern2024 (formatYMD (.date ⟨2024, 2, 9⟩))
        (formatYMD (.date ⟨2024, 2, 9⟩)) = some 0
    ∧ daysBetween tzUSEastern2024 (formatYMD (.date ⟨2024, 2, 9⟩))
        (formatYMD (.date ⟨2024, 2, 11⟩))
        = some (epochOf ⟨2024, 2, 11⟩ - epochOf ⟨2024, 2, 9⟩)
    ∧ daysBetween tzUSEastern2024 (formatYMD (.date ⟨2024, 2, 9⟩))
        (formatYMD (.date ⟨2024, 2, 11⟩))
        = (daysBetween tzUSEastern2024 (formatYMD (.date ⟨2024, 2, 11⟩))
            (formatYMD (.date ⟨2024, 2, 9⟩))).map (fun x => -x)) :=
  ⟨⟨by decide, by norm_num, by decide⟩,
    daysBetween_correct tzUSEastern2024 tzUSEastern2024_bounded
      ⟨2024, 2, 9⟩ ⟨2024, 2, 11⟩ (by decide) (by norm_num) (by decide) (by norm_num)⟩

/-- C7: `rangesOverlap` returns true iff neither range ends strictly
before the other begins (a shared boundary date counts as overlap), and
on the two concrete spec examples it returns `true` and `false`. -/
theorem rangesOverlap_correct (off : Int → Int) (htz : TZBounded off)
    (a1 a2 b1 b2 : CDate)
    (ha1 : Canonical a1) (hya1 : 100 ≤ a1.year)
    (ha2 : Canonical a2) (hya2 : 100 ≤ a2.year)
    (hb1 : Canonical b1) (hyb1 : 100 ≤ b1.year)
    (hb2 : Canonical b2) (hyb2 : 100 ≤ b2.year) :
    (rangesOverlap off (formatYMD (.date a1)) (formatYMD (.date a2))
        (formatYMD (.date b1)) (formatYMD (.date b2)) = true
      ↔ ¬ (epochOf a2 < epochOf b1 ∨ epochOf b2 < epochOf a1))
    ∧ rangesOverlap tzZero "2024-01-10" "2024-01-15" "2024-01-15" "2024-01-20" = true
    ∧ rangesOverlap tzZero "2024-01-10" "2024-01-14" "2024-01-15" "2024-01-20" = false := by
  refine ⟨?_, by decide, by decide⟩
  unfold rangesOverlap
  rw [parseYMD_formatYMD a1 ha1 hya1, parseYMD_formatYMD a2 ha2 hya2,
    parseYMD_formatYMD b1 hb1 hyb1, parseYMD_formatYMD b2 hb2 hyb2]
  simp [dateLtB, msOf_lt_iff off htz]

/-- Witness for C7 on the boundary-sharing example dates. -/
theorem rangesOverlap_correct_witness :
    (Canonical ⟨2024, 0, 10⟩ ∧ Canonical ⟨2024, 0, 15⟩
      ∧ Canonical ⟨2024, 0, 20⟩) ∧
    ((rangesOverlap tzZero (formatYMD (.date ⟨2024, 0, 10⟩))
        (formatYMD (.date ⟨2024, 0, 15⟩)) (formatYMD (.date ⟨2024, 0, 15⟩))
        (formatYMD (.date ⟨2024, 0, 20⟩)) = true
      ↔ ¬ (epochOf ⟨2024, 0, 15⟩ < epochOf ⟨2024, 0, 15⟩
          ∨ epochOf ⟨2024, 0, 20⟩ < epochOf ⟨2024, 0, 10⟩))
    ∧ rangesOverlap tzZero "2024-01-10" "2024-01-15" "2024-01-15" "2024-01-20" = true
    ∧ rangesOverlap tzZero "2024-01-10" "2024-01-14" "2024-01-15" "2024-01-20" = false) :=
  ⟨⟨by decide, by decide, by decide⟩,
    rangesOverlap_correct tzZero (fun n m => by simp [tzZero])
      ⟨2024, 0, 10⟩ ⟨2024, 0, 15⟩ ⟨2024, 0, 15⟩ ⟨2024, 0, 20⟩
      (by decide) (by norm_num) (by decide) (by norm_num)
      (by decide) (by norm_num) (by decide) (by norm_num)⟩

/-! ### Employee lookup -/

/-- C9 counterexample: the placeholder returned for a missing id has
name `"Desconocido"`, not `"Unknown"` as the claim states. -/
theorem employeeById_unknown_counterexample :
    employeeById [] "e1" = ⟨"Desconocido", "gray"⟩
    ∧ (employeeById [] "e1").name ≠ "Unknown" := by decide

theorem find?_unique_id (l : List Employee) (e : Employee) (id : String)
    (he : e ∈ l) (heq : e.id = id) (hnodup : (l.map Employee.id).Nodup) :
    l.find? (fun x => x.id == id) = some e := by
  induction l with
  | nil => cases he
  | cons h t ih =>
    rw [List.map_cons, List.nodup_cons] at hnodup
    obtain ⟨hnin, hnd⟩ := hnodup
    rcases List.mem_cons.mp he with rfl | hmem
    · exact List.find?_cons_of_pos _ (by simp [heq])
    · have hne : ¬ (h.id == id) = true := by
        simp only [beq_iff_eq]
        intro hc
        apply hnin
        rw [hc, ← heq]
        exact List.mem_map.mpr ⟨e, hmem, rfl⟩
      rw [List.find?_cons_of_neg (p := fun x => x.id == id) t hne]
      exact ih hmem hnd

/-- C9 amended: looking up an id absent from the employee list returns
the placeholder `{name := "Desconocido", color := "gray"}` — a neutral
color and an "unknown" label — rather than failing; looking up a
present id (ids being unique) returns that employee's name and
color. -/
theorem employeeById_correct (employees : List Employee) (id : String) :
    ((∀ e ∈ employees, e.id ≠ id) →
      employeeById employees id = ⟨"Desconocido", "gray"⟩)
    ∧ (∀ e ∈ employees, e.id = id → (employees.map Employee.id).Nodup →
      employeeById employees id = ⟨e.name, e.color⟩) := by
  constructor
  · intro h
    unfold employeeById
    have hfind : employees.find? (fun e => e.id == id) = none := by
      rw [List.find?_eq_none]
      intro x hx
      simp [h x hx]
    rw [hfind]
  · intro e he heq hnodup
    unfold employeeById
    rw [find?_unique_id employees e id he heq hnodup]

/-- Witness for the amended C9: empty list gives the placeholder; a
present id gives that employee's data. -/
theorem employeeById_correct_witness :
    employeeById [] "e1" = ⟨"Desconocido", "gray"⟩
    ∧ ((⟨"e1", "Ana", "blue"⟩ : Employee) ∈ [(⟨"e1", "Ana", "blue"⟩ : Employee)]
      ∧ employeeById [⟨"e1", "Ana", "blue"⟩] "e1" = ⟨"Ana", "blue"⟩) :=
  ⟨(employeeById_correct [] "e1").1 (by simp),
    ⟨by simp,
      (employeeById_correct [⟨"e1", "Ana", "blue"⟩] "e1").2 ⟨"e1", "Ana", "blue"⟩
        (by simp) rfl (by simp)⟩⟩

end Vacaciones
